import Mathlib

/-!
Shallow embedding of the procedural level generation engine of
`src/game/level/level_builder.rs` (planck-time-trials).

Modelling choices:
* `f32` weights and coordinates become exact rationals `ℚ`; the engine only
  adds, subtracts and compares weights, so the rational model captures the
  algorithm's branch structure exactly.
* `i32` loop counters become `ℤ` (the claims restrict `num_blocks ≥ 0`, far
  from any wrap-around).
* The random source (`Pcg64` with `random_range(0.0..t)`) is abstracted as a
  state type `R` together with `uniform : R → ℚ → ℚ × R` returning the drawn
  value and the successor state; theorems that need it assume the draw lies
  in `[0, t)`, which is `rand`'s contract for `random_range(0.0..t)`.
* Operations are polymorphic trait objects; the trait and the individual
  operation files are not among the sources, so the trait contract is
  modelled from the spec as a record of the three methods over an abstract
  operation-identity type `O`, with `box_clone` of a (stateless) operation
  modelled as the identity.
* The external collaborators threaded through the context (`particle_vec`,
  `entity_system`, `sim`) are out of scope per the spec and take no part in
  any claim; they are omitted from the context record.
-/

namespace PlanckTimeTrials

/-- 2D vector (`core::math::vec2::Vec2`), components standing for the `f32`
fields. -/
structure Vec2 where
  x : ℚ
  y : ℚ
deriving DecidableEq

/-- Modelled from the spec: `core::math::unit_conversions::cm_to_m`, the pure
unit conversion from centimetres to the simulation's internal length unit
(metres); the file is missing from the sources. -/
def cm_to_m (cm : ℚ) : ℚ := cm / 100

/-- Particle prototype: only the radius is relevant to the builder
(`Particle::default().set_radius(particle_radius)`). -/
structure Particle where
  radius : ℚ
deriving DecidableEq

/-- `LevelBuilderContext` (level_builder.rs, lines 18-30): the mutable build
state threaded through one generation run.  `R` is the random-source state
type, `O` the operation-identity type; `operations` is the history of
executed operation clones. -/
structure LevelBuilderContext (R O : Type) where
  cursor : Vec2
  x_direction : ℚ
  x_direction_changed : Bool
  particle_template : Particle
  operations : List O
  is_first : Bool
  is_last : Bool
  rng : R

/-- `LevelBuilderContext::new` (lines 33-49): cursor at the origin,
`x_direction = 1.0`, no direction change, particle radius `cm_to_m(10.0)`,
empty history, `is_first = true`, `is_last = false`. -/
def LevelBuilderContext.new (R O : Type) (rng : R) : LevelBuilderContext R O where
  cursor := ⟨0, 0⟩
  x_direction := 1
  x_direction_changed := false
  particle_template := ⟨cm_to_m 10⟩
  operations := []
  is_first := true
  is_last := false
  rng := rng

/-- Modelled from the spec: the `LevelBuilderOperation` trait
(`level_builder_operation.rs`, missing from the sources), as a record of the
three methods over operation identities `O`.  Per spec §4.1, `prepare` is a
pure weighting pass (it reads the context and rewrites the candidate list,
never the context) and `execute` mutates the context; `box_clone` of a
stateless operation duplicates it, so a clone is the identity itself. -/
structure LevelBuilderOperation (R O : Type) where
  default_spawn_chance : O → ℚ
  prepare : O → LevelBuilderContext R O → List (ℚ × O) → List (ℚ × O)
  execute : O → LevelBuilderContext R O → LevelBuilderContext R O

/-- Modelled from the spec: `LevelBuilderOperationRegistry` (missing from the
sources) is an ordered collection built by appending registrations and
iterated in insertion order; it is exactly a list of operation identities. -/
abbrev LevelBuilderOperationRegistry (O : Type) := List O

variable {R O : Type}

/-- Step (a) of the loop body (lines 70-71): the orchestrator recomputes the
boundary flags at the top of every iteration:
`is_first = (bi == 0)`, `is_last = (bi == num_blocks - 1)`. -/
def setFlags (ctx : LevelBuilderContext R O) (bi num_blocks : ℤ) :
    LevelBuilderContext R O :=
  { ctx with is_first := bi == 0, is_last := bi == num_blocks - 1 }

/-- Step 1 of the loop body (lines 74-77): build `spawn_chance_operations`,
one `(default_spawn_chance(), box_clone())` pair per registered operation, in
registry order. -/
def buildCandidates (impl : LevelBuilderOperation R O)
    (registry : LevelBuilderOperationRegistry O) : List (ℚ × O) :=
  registry.map (fun op => (impl.default_spawn_chance op, op))

/-- Step 2 of the loop body (lines 80-82): every registered operation's
`prepare` runs, in registry order, on the shared candidate list. -/
def runPrepares (impl : LevelBuilderOperation R O)
    (ctx : LevelBuilderContext R O) (registry : LevelBuilderOperationRegistry O)
    (cands : List (ℚ × O)) : List (ℚ × O) :=
  registry.foldl (fun cs op => impl.prepare op ctx cs) cands

/-- The candidate list a block iteration works with: the freshly built
default-weight list after every registered operation's `prepare` pass, given
the context as the iteration sees it (flags already set). -/
def blockCandidates (impl : LevelBuilderOperation R O)
    (registry : LevelBuilderOperationRegistry O)
    (ctx : LevelBuilderContext R O) : List (ℚ × O) :=
  runPrepares impl ctx registry (buildCandidates impl registry)

/-- Step 3 of the loop body (lines 85-88): `spawn_chance_total`, the running
`+=` sum of the candidate weights. -/
def totalWeight (cands : List (ℚ × O)) : ℚ :=
  cands.foldl (fun acc c => acc + c.1) 0

/-- Step 4 walk (lines 96-104): subtract each candidate's chance from
`spawn_value` in list order; the first candidate at which the running value
becomes `≤ 0` is picked.  `none` when the walk falls through the whole list
without picking. -/
def selectOp (v : ℚ) : List (ℚ × O) → Option O
  | [] => none
  | c :: rest => if v - c.1 ≤ 0 then some c.2 else selectOp (v - c.1) rest

/-- The result of one loop iteration, with ghost instrumentation that does
not influence `ctx`: `executed` lists the operations whose `execute` was
called during the iteration, `skipped` records whether the
`spawn_chance_total <= 0.0` branch (`continue`) was taken. -/
structure BlockResult (R O : Type) where
  ctx : LevelBuilderContext R O
  executed : List O
  skipped : Bool

/-- One iteration of the `for bi in 0..num_blocks` loop of
`LevelBuilder::generate` (lines 69-105): set the boundary flags, build the
candidate list, run the prepares, sum the weights; on a non-positive total,
`continue`; otherwise draw `spawn_value` in `[0, total)`, walk the list, and
for the picked candidate push a clone onto the history and call its
`execute`. -/
def genBlock (uniform : R → ℚ → ℚ × R) (impl : LevelBuilderOperation R O)
    (registry : LevelBuilderOperationRegistry O) (num_blocks : ℤ)
    (ctx : LevelBuilderContext R O) (bi : ℤ) : BlockResult R O :=
  let c1 := setFlags ctx bi num_blocks
  let cands := blockCandidates impl registry c1
  if totalWeight cands ≤ 0 then
    ⟨c1, [], true⟩
  else
    let d := uniform c1.rng (totalWeight cands)
    let c2 := { c1 with rng := d.2 }
    match selectOp d.1 cands with
    | none => ⟨c2, [], false⟩
    | some op =>
        ⟨impl.execute op { c2 with operations := c2.operations ++ [op] },
         [op], false⟩

/-- The `for` loop of `generate` over an explicit list of block indices,
accumulating the context together with the ghost executed-operation trace
and the ghost skipped-block count. -/
def genLoop (uniform : R → ℚ → ℚ × R) (impl : LevelBuilderOperation R O)
    (registry : LevelBuilderOperationRegistry O) (num_blocks : ℤ)
    (acc : LevelBuilderContext R O × List O × ℕ) (l : List ℕ) :
    LevelBuilderContext R O × List O × ℕ :=
  l.foldl
    (fun acc i =>
      let r := genBlock uniform impl registry num_blocks acc.1 (i : ℤ)
      (r.ctx, acc.2.1 ++ r.executed, acc.2.2 + if r.skipped then 1 else 0))
    acc

/-- `LevelBuilder::generate` (lines 63-111) with its ghost trace: the final
context, the concatenated executed-operation trace, and the number of
skipped blocks, after the loop `for bi in 0..num_blocks`. -/
def generateRun (uniform : R → ℚ → ℚ × R) (impl : LevelBuilderOperation R O)
    (registry : LevelBuilderOperationRegistry O)
    (ctx : LevelBuilderContext R O) (num_blocks : ℤ) :
    LevelBuilderContext R O × List O × ℕ :=
  genLoop uniform impl registry num_blocks (ctx, [], 0)
    (List.range num_blocks.toNat)

/-- `LevelBuilder::generate`: the observable result, the final context. -/
def generate (uniform : R → ℚ → ℚ × R) (impl : LevelBuilderOperation R O)
    (registry : LevelBuilderOperationRegistry O)
    (ctx : LevelBuilderContext R O) (num_blocks : ℤ) :
    LevelBuilderContext R O :=
  (generateRun uniform impl registry ctx num_blocks).1

/-- `LevelBuilder::generate_level_based_on_date` (lines 53-61): seed the
random source from the calendar day, build a fresh context, generate 10
blocks.  `seed_of_day` models `Random::seed_from_beginning_of_day` (missing
from the sources; modelled from the spec: the seed is a pure function of the
coarse day bucket, the only source of entropy). -/
def generate_level_based_on_date (uniform : R → ℚ → ℚ × R)
    (impl : LevelBuilderOperation R O)
    (registry : LevelBuilderOperationRegistry O)
    (seed_of_day : ℕ → R) (day : ℕ) : LevelBuilderContext R O :=
  generate uniform impl registry
    (LevelBuilderContext.new R O (seed_of_day day)) 10

/-! ## Helper lemmas -/

theorem totalWeight_foldl (cands : List (ℚ × O)) (a : ℚ) :
    cands.foldl (fun acc c => acc + c.1) a = a + totalWeight cands := by
  induction cands generalizing a with
  | nil => simp [totalWeight]
  | cons c cs ih =>
      simp only [totalWeight, List.foldl_cons]
      rw [ih, ih (0 + c.1)]
      ring

theorem totalWeight_cons (c : ℚ × O) (cs : List (ℚ × O)) :
    totalWeight (c :: cs) = c.1 + totalWeight cs := by
  have h : totalWeight (c :: cs)
      = cs.foldl (fun acc x => acc + x.1) (0 + c.1) := rfl
  rw [h, totalWeight_foldl]
  ring

/-- When the drawn value lies in `[0, total)`, the subtraction walk always
picks some candidate: it cannot fall through the list. -/
theorem selectOp_isSome (v : ℚ) (cands : List (ℚ × O)) (h0 : 0 ≤ v)
    (hlt : v < totalWeight cands) : (selectOp v cands).isSome := by
  induction cands generalizing v with
  | nil =>
      simp only [totalWeight, List.foldl_nil] at hlt
      exact absurd hlt (not_lt.mpr h0)
  | cons c cs ih =>
      rw [totalWeight_cons] at hlt
      simp only [selectOp]
      split_ifs with h
      · rfl
      · exact ih (v - c.1) (by linarith) (by linarith)

theorem setFlags_cursor (ctx : LevelBuilderContext R O) (bi n : ℤ) :
    (setFlags ctx bi n).cursor = ctx.cursor := rfl

theorem setFlags_operations (ctx : LevelBuilderContext R O) (bi n : ℤ) :
    (setFlags ctx bi n).operations = ctx.operations := rfl

theorem setFlags_rng (ctx : LevelBuilderContext R O) (bi n : ℤ) :
    (setFlags ctx bi n).rng = ctx.rng := rfl

/-- The `spawn_chance_total <= 0.0` branch: the iteration only recomputes the
boundary flags, calls no `execute`, and counts as skipped. -/
theorem genBlock_skip (uniform : R → ℚ → ℚ × R)
    (impl : LevelBuilderOperation R O)
    (registry : LevelBuilderOperationRegistry O) (num_blocks : ℤ)
    (ctx : LevelBuilderContext R O) (bi : ℤ)
    (h : totalWeight (blockCandidates impl registry
          (setFlags ctx bi num_blocks)) ≤ 0) :
    genBlock uniform impl registry num_blocks ctx bi
      = ⟨setFlags ctx bi num_blocks, [], true⟩ := by
  simp [genBlock, h]

theorem genBlock_skipped_iff (uniform : R → ℚ → ℚ × R)
    (impl : LevelBuilderOperation R O)
    (registry : LevelBuilderOperationRegistry O) (num_blocks : ℤ)
    (ctx : LevelBuilderContext R O) (bi : ℤ) :
    (genBlock uniform impl registry num_blocks ctx bi).skipped = true
      ↔ totalWeight (blockCandidates impl registry
          (setFlags ctx bi num_blocks)) ≤ 0 := by
  simp only [genBlock]
  split
  · next h => simpa using h
  · next h =>
      split <;> simpa using h

theorem genBlock_executed_length (uniform : R → ℚ → ℚ × R)
    (impl : LevelBuilderOperation R O)
    (registry : LevelBuilderOperationRegistry O) (num_blocks : ℤ)
    (ctx : LevelBuilderContext R O) (bi : ℤ) :
    (genBlock uniform impl registry num_blocks ctx bi).executed.length ≤ 1 := by
  simp only [genBlock]
  split
  · simp
  · split <;> simp

/-- Whatever the block outcome, the final history of the iteration is the
incoming history extended by exactly the operations whose `execute` ran,
provided `execute` itself leaves the history alone (spec §4.1: `execute`
advances cursor/direction and materializes content). -/
theorem genBlock_operations (uniform : R → ℚ → ℚ × R)
    (impl : LevelBuilderOperation R O)
    (registry : LevelBuilderOperationRegistry O) (num_blocks : ℤ)
    (ctx : LevelBuilderContext R O) (bi : ℤ)
    (hexec : ∀ op c, (impl.execute op c).operations = c.operations) :
    (genBlock uniform impl registry num_blocks ctx bi).ctx.operations
      = ctx.operations ++ (genBlock uniform impl registry num_blocks ctx bi).executed := by
  simp only [genBlock]
  split
  · simp [setFlags]
  · split
    · simp [setFlags]
    · simp [hexec, setFlags]

/-- A non-skipped iteration executes exactly one operation, as long as the
random source honours the `[0, total)` contract of `random_range`. -/
theorem genBlock_executed_of_not_skipped (uniform : R → ℚ → ℚ × R)
    (impl : LevelBuilderOperation R O)
    (registry : LevelBuilderOperationRegistry O) (num_blocks : ℤ)
    (ctx : LevelBuilderContext R O) (bi : ℤ)
    (hrange : ∀ (r : R) (t : ℚ), 0 < t →
      0 ≤ (uniform r t).1 ∧ (uniform r t).1 < t)
    (hns : (genBlock uniform impl registry num_blocks ctx bi).skipped = false) :
    (genBlock uniform impl registry num_blocks ctx bi).executed.length = 1 := by
  revert hns
  simp only [genBlock]
  split
  · intro hns
    simp at hns
  · next h =>
      rw [not_le] at h
      have hr := hrange (setFlags ctx bi num_blocks).rng _ h
      have hsome := selectOp_isSome _ _ hr.1 hr.2
      split
      · next hsel => rw [hsel] at hsome; simp at hsome
      · intro _
        simp

theorem genLoop_nil (uniform : R → ℚ → ℚ × R) (impl : LevelBuilderOperation R O)
    (registry : LevelBuilderOperationRegistry O) (num_blocks : ℤ)
    (acc : LevelBuilderContext R O × List O × ℕ) :
    genLoop uniform impl registry num_blocks acc [] = acc := rfl

theorem genLoop_cons (uniform : R → ℚ → ℚ × R) (impl : LevelBuilderOperation R O)
    (registry : LevelBuilderOperationRegistry O) (num_blocks : ℤ)
    (acc : LevelBuilderContext R O × List O × ℕ) (i : ℕ) (l : List ℕ) :
    genLoop uniform impl registry num_blocks acc (i :: l)
      = genLoop uniform impl registry num_blocks
          ((genBlock uniform impl registry num_blocks acc.1 (i : ℤ)).ctx,
           acc.2.1 ++ (genBlock uniform impl registry num_blocks acc.1 (i : ℤ)).executed,
           acc.2.2 + if (genBlock uniform impl registry num_blocks acc.1 (i : ℤ)).skipped
                     then 1 else 0) l := rfl

/-- Run invariant: the loop extends the history by exactly the trace of
executed operations, and every processed block index contributes one unit to
executed-trace length plus skipped count. -/
theorem genLoop_spec (uniform : R → ℚ → ℚ × R) (impl : LevelBuilderOperation R O)
    (registry : LevelBuilderOperationRegistry O) (num_blocks : ℤ)
    (hrange : ∀ (r : R) (t : ℚ), 0 < t →
      0 ≤ (uniform r t).1 ∧ (uniform r t).1 < t)
    (hexec : ∀ op c, (impl.execute op c).operations = c.operations) :
    ∀ (l : List ℕ) (c : LevelBuilderContext R O) (tr : List O) (k : ℕ),
    ∃ (c' : LevelBuilderContext R O) (Δ : List O) (s : ℕ),
      genLoop uniform impl registry num_blocks (c, tr, k) l = (c', tr ++ Δ, k + s) ∧
      c'.operations = c.operations ++ Δ ∧
      Δ.length + s = l.length := by
  intro l
  induction l with
  | nil =>
      intro c tr k
      exact ⟨c, [], 0, by simp [genLoop_nil], by simp, by simp⟩
  | cons i l ih =>
      intro c tr k
      rw [genLoop_cons]
      by_cases hsk : (genBlock uniform impl registry num_blocks c (i : ℤ)).skipped = true
      · have htot := (genBlock_skipped_iff uniform impl registry num_blocks c (i : ℤ)).mp hsk
        have heq := genBlock_skip uniform impl registry num_blocks c (i : ℤ) htot
        rw [heq]
        simp only [List.append_nil]
        obtain ⟨c', Δ, s, h1, h2, h3⟩ := ih (setFlags c (i : ℤ) num_blocks) tr (k + 1)
        refine ⟨c', Δ, s + 1, ?_, ?_, ?_⟩
        · have hk : k + (s + 1) = k + 1 + s := by omega
          simpa [hk] using h1
        · rw [h2, setFlags_operations]
        · simp at h3 ⊢; omega
      · rw [Bool.not_eq_true] at hsk
        have hlen := genBlock_executed_of_not_skipped uniform impl registry
          num_blocks c (i : ℤ) hrange hsk
        obtain ⟨op, hop⟩ := List.length_eq_one.mp hlen
        have hops := genBlock_operations uniform impl registry num_blocks c (i : ℤ) hexec
        rw [hsk, hop]
        simp only [if_neg Bool.false_ne_true, Nat.add_zero]
        obtain ⟨c', Δ, s, h1, h2, h3⟩ :=
          ih (genBlock uniform impl registry num_blocks c (i : ℤ)).ctx (tr ++ [op]) k
        refine ⟨c', op :: Δ, s, ?_, ?_, ?_⟩
        · rw [h1]; simp
        · rw [h2, hops, hop]; simp
        · simp at h3 ⊢; omega

/-- An empty registry degenerates every block to the skip branch: the loop
only rewrites the boundary flags and counts every index as skipped. -/
theorem genBlock_empty_registry (uniform : R → ℚ → ℚ × R)
    (impl : LevelBuilderOperation R O) (num_blocks : ℤ)
    (c : LevelBuilderContext R O) (bi : ℤ) :
    genBlock uniform impl ([] : LevelBuilderOperationRegistry O) num_blocks c bi
      = ⟨setFlags c bi num_blocks, [], true⟩ :=
  genBlock_skip uniform impl [] num_blocks c bi
    (by simp [blockCandidates, runPrepares, buildCandidates, totalWeight])

theorem genLoop_empty_registry (uniform : R → ℚ → ℚ × R)
    (impl : LevelBuilderOperation R O) (num_blocks : ℤ) :
    ∀ (l : List ℕ) (c : LevelBuilderContext R O) (tr : List O) (k : ℕ),
    ∃ c', genLoop uniform impl ([] : LevelBuilderOperationRegistry O)
            num_blocks (c, tr, k) l = (c', tr, k + l.length) ∧
      c'.cursor = c.cursor ∧ c'.x_direction = c.x_direction ∧
      c'.x_direction_changed = c.x_direction_changed ∧
      c'.operations = c.operations ∧ c'.rng = c.rng := by
  intro l
  induction l with
  | nil =>
      intro c tr k
      exact ⟨c, by simp [genLoop_nil], rfl, rfl, rfl, rfl, rfl⟩
  | cons i l ih =>
      intro c tr k
      rw [genLoop_cons, genBlock_empty_registry]
      simp only [List.append_nil, if_pos]
      obtain ⟨c', h1, h2, h3, h4, h5, h6⟩ := ih (setFlags c (i : ℤ) num_blocks) tr (k + 1)
      refine ⟨c', ?_, h2, h3, h4, h5, h6⟩
      have hk : k + (i :: l).length = k + 1 + l.length := by
        simp only [List.length_cons]; omega
      rw [hk, ← h1]

/-- The rng field after one block: untouched on the skip branch, advanced by
exactly one generator step otherwise (given that the generator's state
transition does not depend on the range argument, as with `Pcg64`, and that
`execute` does not touch the random source). -/
theorem genBlock_rng (uniform : R → ℚ → ℚ × R) (impl : LevelBuilderOperation R O)
    (registry : LevelBuilderOperationRegistry O) (num_blocks : ℤ)
    (ctx : LevelBuilderContext R O) (bi : ℤ) (step : R → R)
    (hstep : ∀ r t, (uniform r t).2 = step r)
    (hexecrng : ∀ op c, (impl.execute op c).rng = c.rng) :
    (genBlock uniform impl registry num_blocks ctx bi).ctx.rng
      = if (genBlock uniform impl registry num_blocks ctx bi).skipped
        then ctx.rng else step ctx.rng := by
  simp only [genBlock]
  split
  · simp [setFlags]
  · split
    · simp [setFlags, hstep]
    · simp [setFlags, hstep, hexecrng]

theorem genLoop_rng (uniform : R → ℚ → ℚ × R) (impl : LevelBuilderOperation R O)
    (registry : LevelBuilderOperationRegistry O) (num_blocks : ℤ) (step : R → R)
    (hstep : ∀ r t, (uniform r t).2 = step r)
    (hexecrng : ∀ op c, (impl.execute op c).rng = c.rng) :
    ∀ (l : List ℕ) (c : LevelBuilderContext R O) (tr : List O) (k : ℕ),
    ∃ s : ℕ, s ≤ l.length ∧
      (genLoop uniform impl registry num_blocks (c, tr, k) l).2.2 = k + s ∧
      (genLoop uniform impl registry num_blocks (c, tr, k) l).1.rng
        = step^[l.length - s] c.rng := by
  intro l
  induction l with
  | nil =>
      intro c tr k
      exact ⟨0, by simp, by simp [genLoop_nil], by simp [genLoop_nil]⟩
  | cons i l ih =>
      intro c tr k
      rw [genLoop_cons]
      have hrng := genBlock_rng uniform impl registry num_blocks c (i : ℤ)
        step hstep hexecrng
      by_cases hsk : (genBlock uniform impl registry num_blocks c (i : ℤ)).skipped = true
      · rw [hsk, if_pos rfl] at hrng ⊢
        obtain ⟨s, hs1, hs2, hs3⟩ :=
          ih (genBlock uniform impl registry num_blocks c (i : ℤ)).ctx
            (tr ++ (genBlock uniform impl registry num_blocks c (i : ℤ)).executed) (k + 1)
        refine ⟨s + 1, by simp; omega, by rw [hs2]; omega, ?_⟩
        rw [hs3, hrng]
        have : (i :: l).length - (s + 1) = l.length - s := by simp
        rw [this]
      · rw [Bool.not_eq_true] at hsk
        rw [hsk, if_neg Bool.false_ne_true] at hrng
        rw [hsk]
        simp only [if_neg Bool.false_ne_true, Nat.add_zero]
        obtain ⟨s, hs1, hs2, hs3⟩ :=
          ih (genBlock uniform impl registry num_blocks c (i : ℤ)).ctx
            (tr ++ (genBlock uniform impl registry num_blocks c (i : ℤ)).executed) k
        refine ⟨s, by simp; omega, hs2, ?_⟩
        rw [hs3, hrng, ← Function.iterate_succ_apply]
        have : (i :: l).length - s = (l.length - s) + 1 := by
          simp only [List.length_cons]
          omega
        rw [this]

theorem setFlags_setFlags (ctx : LevelBuilderContext R O) (bi n : ℤ) :
    setFlags (setFlags ctx bi n) bi n = setFlags ctx bi n := rfl

/-! ## Concrete instances used by witnesses and counterexamples -/

/-- A minimal admissible random source for witnesses: the state counts the
draws made and every draw returns `0`, which lies in `[0, t)` whenever
`0 < t`. -/
def zeroDraw : ℕ → ℚ → ℚ × ℕ := fun s _ => (0, s + 1)

theorem zeroDraw_range : ∀ (r : ℕ) (t : ℚ), 0 < t →
    0 ≤ (zeroDraw r t).1 ∧ (zeroDraw r t).1 < t :=
  fun _ _ ht => ⟨le_refl 0, ht⟩

/-- A one-variant operation set with unit weight, identity `prepare` and
identity `execute`, for witnesses. -/
def unitImpl : LevelBuilderOperation ℕ Unit where
  default_spawn_chance _ := 1
  prepare _ _ cands := cands
  execute _ c := c

def unitCtx : LevelBuilderContext ℕ Unit := LevelBuilderContext.new ℕ Unit 0

/-! ## Claims -/

/-- C1: Determinism.  Two generation runs from equal RNG seeds and fresh,
equal build contexts produce identical ordered operation histories and
identical final cursor positions and x_direction values; in particular two
date-seeded runs from the same calendar day coincide completely.  The whole
engine is a pure function of the seed: the date seed is the only source of
entropy. -/
theorem generate_deterministic (uniform : R → ℚ → ℚ × R)
    (impl : LevelBuilderOperation R O)
    (registry : LevelBuilderOperationRegistry O)
    (seed_of_day : ℕ → R) (s1 s2 : R) (num_blocks : ℤ) (day1 day2 : ℕ)
    (hs : s1 = s2) (hd : day1 = day2) :
    ((generate uniform impl registry (LevelBuilderContext.new R O s1) num_blocks).operations
       = (generate uniform impl registry (LevelBuilderContext.new R O s2) num_blocks).operations ∧
     (generate uniform impl registry (LevelBuilderContext.new R O s1) num_blocks).cursor
       = (generate uniform impl registry (LevelBuilderContext.new R O s2) num_blocks).cursor ∧
     (generate uniform impl registry (LevelBuilderContext.new R O s1) num_blocks).x_direction
       = (generate uniform impl registry (LevelBuilderContext.new R O s2) num_blocks).x_direction) ∧
    generate_level_based_on_date uniform impl registry seed_of_day day1
      = generate_level_based_on_date uniform impl registry seed_of_day day2 := by
  subst hs
  subst hd
  exact ⟨⟨rfl, rfl, rfl⟩, rfl⟩

theorem generate_deterministic_witness :
    ((generate zeroDraw unitImpl [()] (LevelBuilderContext.new ℕ Unit 0) 3).operations
       = (generate zeroDraw unitImpl [()] (LevelBuilderContext.new ℕ Unit 0) 3).operations ∧
     (generate zeroDraw unitImpl [()] (LevelBuilderContext.new ℕ Unit 0) 3).cursor
       = (generate zeroDraw unitImpl [()] (LevelBuilderContext.new ℕ Unit 0) 3).cursor ∧
     (generate zeroDraw unitImpl [()] (LevelBuilderContext.new ℕ Unit 0) 3).x_direction
       = (generate zeroDraw unitImpl [()] (LevelBuilderContext.new ℕ Unit 0) 3).x_direction) ∧
    generate_level_based_on_date zeroDraw unitImpl [()] (fun _ => 0) 7
      = generate_level_based_on_date zeroDraw unitImpl [()] (fun _ => 0) 7 :=
  generate_deterministic zeroDraw unitImpl [()] (fun _ => 0) 0 0 3 7 7 rfl rfl

/-- Operation identities for the weighted-selection fidelity scenario:
candidates A, B, C listed with weights 2, 1, 1. -/
inductive ABC
  | A
  | B
  | C
deriving DecidableEq

def abcCandidates : List (ℚ × ABC) := [(2, ABC.A), (1, ABC.B), (1, ABC.C)]

/-- C2 counterexample: at the exact boundary draw 2 the walk selects A — the
running value 2 - 2 = 0 is already ≤ 0 at the first candidate — whereas the
claim's interval mapping `[2,3) → B` demands B. -/
theorem selectOp_boundary_counterexample :
    selectOp (2 : ℚ) abcCandidates = some ABC.A ∧ ABC.A ≠ ABC.B := by
  constructor
  · simp only [abcCandidates, selectOp]
    norm_num
  · decide

/-- C2 (amended): for weights `[2, 1, 1]` the walk selects A on `[0, 2]`,
B on `(2, 3]` and C on `(3, 4)` — the intervals are closed on the right, not
the left, because a candidate is taken as soon as the running value reaches
`≤ 0`, exact-boundary ties going to the earlier-listed candidate. -/
theorem selectOp_two_one_one (d : ℚ) (h0 : 0 ≤ d) (h4 : d < 4) :
    (selectOp d abcCandidates = some ABC.A ↔ d ≤ 2) ∧
    (selectOp d abcCandidates = some ABC.B ↔ 2 < d ∧ d ≤ 3) ∧
    (selectOp d abcCandidates = some ABC.C ↔ 3 < d) := by
  have e : selectOp d abcCandidates
      = if d ≤ 2 then some ABC.A else if d ≤ 3 then some ABC.B else some ABC.C := by
    simp only [abcCandidates, selectOp]
    split_ifs <;> first | rfl | (exfalso; linarith)
  rw [e]
  split_ifs with ha hb
  · have hnb : ¬(2 < d ∧ d ≤ 3) := fun h => absurd ha (not_le.mpr h.1)
    have hnc : ¬(3 < d) := by linarith
    exact ⟨by simp [ha], by simp [hnb], by simp [hnc]⟩
  · have h2 : 2 < d := not_le.mp ha
    have hnc : ¬(3 < d) := by linarith
    exact ⟨by simp [ha], by simp [h2, hb], by simp [hnc]⟩
  · have h3 : 3 < d := not_le.mp hb
    have hnb : ¬(2 < d ∧ d ≤ 3) := fun h => absurd h.2 (not_le.mpr h3)
    exact ⟨by simp [ha], by simp [hnb], by simp [h3]⟩

theorem selectOp_two_one_one_witness :
    (0 : ℚ) ≤ 5/2 ∧ (5/2 : ℚ) < 4 ∧
    (selectOp (5/2 : ℚ) abcCandidates = some ABC.B
      ↔ 2 < (5/2 : ℚ) ∧ (5/2 : ℚ) ≤ 3) :=
  ⟨by norm_num, by norm_num,
   (selectOp_two_one_one (5/2) (by norm_num) (by norm_num)).2.1⟩

/-- C3: Zero-weight skip atomicity.  When the candidate weights after the
prepare pass sum to ≤ 0, the iteration takes the `continue` branch: nothing
executes, and cursor, x_direction and the operation history are exactly the
incoming ones (only the boundary flags were recomputed). -/
theorem genBlock_zero_weight_skip (uniform : R → ℚ → ℚ × R)
    (impl : LevelBuilderOperation R O)
    (registry : LevelBuilderOperationRegistry O) (num_blocks : ℤ)
    (ctx : LevelBuilderContext R O) (bi : ℤ)
    (htot : totalWeight (blockCandidates impl registry
        (setFlags ctx bi num_blocks)) ≤ 0) :
    genBlock uniform impl registry num_blocks ctx bi
      = ⟨setFlags ctx bi num_blocks, [], true⟩ ∧
    (genBlock uniform impl registry num_blocks ctx bi).executed = [] ∧
    (genBlock uniform impl registry num_blocks ctx bi).ctx.cursor = ctx.cursor ∧
    (genBlock uniform impl registry num_blocks ctx bi).ctx.x_direction = ctx.x_direction ∧
    (genBlock uniform impl registry num_blocks ctx bi).ctx.operations = ctx.operations := by
  have h := genBlock_skip uniform impl registry num_blocks ctx bi htot
  refine ⟨h, ?_, ?_, ?_, ?_⟩ <;> simp [h, setFlags]

theorem genBlock_zero_weight_skip_witness :
    genBlock zeroDraw unitImpl [] 1 unitCtx 0 = ⟨setFlags unitCtx 0 1, [], true⟩ ∧
    (genBlock zeroDraw unitImpl [] 1 unitCtx 0).executed = [] ∧
    (genBlock zeroDraw unitImpl [] 1 unitCtx 0).ctx.cursor = unitCtx.cursor ∧
    (genBlock zeroDraw unitImpl [] 1 unitCtx 0).ctx.x_direction = unitCtx.x_direction ∧
    (genBlock zeroDraw unitImpl [] 1 unitCtx 0).ctx.operations = unitCtx.operations :=
  genBlock_zero_weight_skip zeroDraw unitImpl [] 1 unitCtx 0
    (by simp [blockCandidates, runPrepares, buildCandidates, totalWeight])

/-- C4: At most one `execute` per block iteration, unconditionally; and when
the total candidate weight is positive the walk cannot fall through (the
draw lies in `[0, total)`), so exactly one operation executes and exactly one
history entry is appended. -/
theorem genBlock_exactly_one_execute (uniform : R → ℚ → ℚ × R)
    (impl : LevelBuilderOperation R O)
    (registry : LevelBuilderOperationRegistry O) (num_blocks : ℤ)
    (ctx : LevelBuilderContext R O) (bi : ℤ)
    (hrange : ∀ (r : R) (t : ℚ), 0 < t →
      0 ≤ (uniform r t).1 ∧ (uniform r t).1 < t)
    (hexec : ∀ op c, (impl.execute op c).operations = c.operations) :
    (genBlock uniform impl registry num_blocks ctx bi).executed.length ≤ 1 ∧
    (0 < totalWeight (blockCandidates impl registry (setFlags ctx bi num_blocks)) →
      (genBlock uniform impl registry num_blocks ctx bi).executed.length = 1 ∧
      (genBlock uniform impl registry num_blocks ctx bi).ctx.operations.length
        = ctx.operations.length + 1) := by
  refine ⟨genBlock_executed_length uniform impl registry num_blocks ctx bi,
    fun htot => ?_⟩
  have hns : (genBlock uniform impl registry num_blocks ctx bi).skipped = false := by
    rw [← Bool.not_eq_true, genBlock_skipped_iff]
    exact not_le.mpr htot
  have h1 := genBlock_executed_of_not_skipped uniform impl registry num_blocks
    ctx bi hrange hns
  refine ⟨h1, ?_⟩
  rw [genBlock_operations uniform impl registry num_blocks ctx bi hexec]
  simp [List.length_append, h1]

theorem genBlock_exactly_one_execute_witness :
    (genBlock zeroDraw unitImpl [()] 1 unitCtx 0).executed.length ≤ 1 ∧
    (0 < totalWeight (blockCandidates unitImpl [()] (setFlags unitCtx 0 1)) →
      (genBlock zeroDraw unitImpl [()] 1 unitCtx 0).executed.length = 1 ∧
      (genBlock zeroDraw unitImpl [()] 1 unitCtx 0).ctx.operations.length
        = unitCtx.operations.length + 1) :=
  genBlock_exactly_one_execute zeroDraw unitImpl [()] 1 unitCtx 0
    zeroDraw_range (fun _ _ => rfl)

/-- C6: Boundary flags.  At the top of every iteration the orchestrator sets
`is_first` exactly for block index 0 and `is_last` exactly for index
`num_blocks - 1`; it recomputes them from scratch (running the iteration from
an arbitrarily pre-flagged context changes nothing); for `num_blocks = 5`
they hold exactly at indices 0 and 4, and for `num_blocks = 1` both hold at
index 0. -/
theorem boundary_flags (uniform : R → ℚ → ℚ × R)
    (impl : LevelBuilderOperation R O)
    (registry : LevelBuilderOperationRegistry O)
    (ctx : LevelBuilderContext R O) (bi num_blocks : ℤ)
    (h1 : 1 ≤ num_blocks) (h0 : 0 ≤ bi) (hlt : bi < num_blocks) :
    ((setFlags ctx bi num_blocks).is_first = true ↔ bi = 0) ∧
    ((setFlags ctx bi num_blocks).is_last = true ↔ bi = num_blocks - 1) ∧
    genBlock uniform impl registry num_blocks ctx bi
      = genBlock uniform impl registry num_blocks (setFlags ctx bi num_blocks) bi ∧
    ((setFlags ctx bi 5).is_first = true ↔ bi = 0) ∧
    ((setFlags ctx bi 5).is_last = true ↔ bi = 4) ∧
    (setFlags ctx 0 1).is_first = true ∧ (setFlags ctx 0 1).is_last = true := by
  refine ⟨by simp [setFlags], by simp [setFlags], ?_, by simp [setFlags],
    by norm_num [setFlags], by simp [setFlags], by simp [setFlags]⟩
  simp only [genBlock, setFlags_setFlags]

theorem boundary_flags_witness :
    ((setFlags unitCtx 0 1).is_first = true ↔ (0 : ℤ) = 0) ∧
    ((setFlags unitCtx 0 1).is_last = true ↔ (0 : ℤ) = 1 - 1) ∧
    genBlock zeroDraw unitImpl [()] 1 unitCtx 0
      = genBlock zeroDraw unitImpl [()] 1 (setFlags unitCtx 0 1) 0 ∧
    ((setFlags unitCtx 0 5).is_first = true ↔ (0 : ℤ) = 0) ∧
    ((setFlags unitCtx 0 5).is_last = true ↔ (0 : ℤ) = 4) ∧
    (setFlags unitCtx 0 1).is_first = true ∧ (setFlags unitCtx 0 1).is_last = true :=
  boundary_flags zeroDraw unitImpl [()] unitCtx 0 1
    (by norm_num) (by norm_num) (by norm_num)

/-- Operation identities for the end-to-end scenario: Spawn, Finish,
Straight. -/
inductive SFS
  | spawn
  | finish
  | straight
deriving DecidableEq

/-- Modelled from the spec (§8 end-to-end scenario): Spawn has default
weight 1 and its `prepare` zeroes Spawn entries outside the first block;
Finish has default weight 1 and zeroes Finish entries outside the last
block; Straight has default weight 3 and an inert `prepare`.  The scenario
fixes only weights and prepare behaviour, so `execute` is the identity. -/
def sfsImpl (R : Type) : LevelBuilderOperation R SFS where
  default_spawn_chance o :=
    match o with
    | .spawn => 1
    | .finish => 1
    | .straight => 3
  prepare o ctx cands :=
    match o with
    | .spawn =>
        if ctx.is_first then cands
        else cands.map (fun c =>
          match c with
          | (_, SFS.spawn) => (0, SFS.spawn)
          | other => other)
    | .finish =>
        if ctx.is_last then cands
        else cands.map (fun c =>
          match c with
          | (_, SFS.finish) => (0, SFS.finish)
          | other => other)
    | .straight => cands
  execute _ c := c

/-- The scenario registry, in the claim's order: Spawn, Finish, Straight. -/
def sfsRegistry : LevelBuilderOperationRegistry SFS := [.spawn, .finish, .straight]

/-- A concrete admissible random source: every draw returns half the range,
which lies in `[0, t)` whenever `0 < t`. -/
def halfDraw : ℕ → ℚ → ℚ × ℕ := fun s t => (t / 2, s + 1)

/-- C5 counterexample: with the scenario registry and the mid-interval
random source, the first block draws 2 into the weight list
`[(1, Spawn), (0, Finish), (3, Straight)]` and selects Straight (2 > 1), so
the history is `[Straight, Straight, Straight]`, not
`[Spawn, Straight, Finish]` — the claimed history does not arise for every
seed. -/
theorem sfs_counterexample :
    (generate halfDraw (sfsImpl ℕ) sfsRegistry
        (LevelBuilderContext.new ℕ SFS 0) 3).operations
      = [SFS.straight, SFS.straight, SFS.straight] ∧
    [SFS.straight, SFS.straight, SFS.straight]
      ≠ [SFS.spawn, SFS.straight, SFS.finish] := by
  constructor
  · norm_num [generate, generateRun, genLoop, List.range, List.range.loop, genBlock,
      setFlags, blockCandidates, runPrepares, buildCandidates, totalWeight, selectOp,
      sfsImpl, sfsRegistry, halfDraw, LevelBuilderContext.new]
  · decide

/-- C5 (amended): with the scenario registry, `generate(context, 3)` always
produces a history of length 3 whose entries are determined by the three
draws `d0 ∈ [0,4)`, `d1 ∈ [0,3)`, `d2 ∈ [0,4)`: index 0 is Spawn iff
`d0 ≤ 1` (else Straight), index 1 is Spawn iff `d1 = 0` (else Straight),
index 2 is Spawn iff `d2 = 0`, Finish iff `0 < d2 ≤ 1`, else Straight.  The
history equals `[Spawn, Straight, Finish]` exactly when `d0 ≤ 1`, `0 < d1`
and `0 < d2 ≤ 1` — not for every seed. -/
theorem sfs_end_to_end (uniform : R → ℚ → ℚ × R) (r0 : R)
    (hrange : ∀ (r : R) (t : ℚ), 0 < t →
      0 ≤ (uniform r t).1 ∧ (uniform r t).1 < t) :
    (generate uniform (sfsImpl R) sfsRegistry
        (LevelBuilderContext.new R SFS r0) 3).operations
      = [if (uniform r0 4).1 ≤ 1 then SFS.spawn else SFS.straight,
         if (uniform (uniform r0 4).2 3).1 ≤ 0 then SFS.spawn else SFS.straight,
         if (uniform (uniform (uniform r0 4).2 3).2 4).1 ≤ 0 then SFS.spawn
         else if (uniform (uniform (uniform r0 4).2 3).2 4).1 ≤ 1 then SFS.finish
         else SFS.straight] ∧
    ((generate uniform (sfsImpl R) sfsRegistry
        (LevelBuilderContext.new R SFS r0) 3).operations
        = [SFS.spawn, SFS.straight, SFS.finish]
      ↔ ((uniform r0 4).1 ≤ 1 ∧ 0 < (uniform (uniform r0 4).2 3).1 ∧
         0 < (uniform (uniform (uniform r0 4).2 3).2 4).1 ∧
         (uniform (uniform (uniform r0 4).2 3).2 4).1 ≤ 1)) := by
  obtain ⟨h0a, h0b⟩ := hrange r0 4 (by norm_num)
  obtain ⟨h1a, h1b⟩ := hrange (uniform r0 4).2 3 (by norm_num)
  obtain ⟨h2a, h2b⟩ := hrange (uniform (uniform r0 4).2 3).2 4 (by norm_num)
  have hmain : (generate uniform (sfsImpl R) sfsRegistry
        (LevelBuilderContext.new R SFS r0) 3).operations
      = [if (uniform r0 4).1 ≤ 1 then SFS.spawn else SFS.straight,
         if (uniform (uniform r0 4).2 3).1 ≤ 0 then SFS.spawn else SFS.straight,
         if (uniform (uniform (uniform r0 4).2 3).2 4).1 ≤ 0 then SFS.spawn
         else if (uniform (uniform (uniform r0 4).2 3).2 4).1 ≤ 1 then SFS.finish
         else SFS.straight] := by
    by_cases c0 : (uniform r0 4).1 ≤ 1 <;>
    by_cases c1 : (uniform (uniform r0 4).2 3).1 ≤ 0 <;>
    by_cases c2 : (uniform (uniform (uniform r0 4).2 3).2 4).1 ≤ 0 <;>
    by_cases c3 : (uniform (uniform (uniform r0 4).2 3).2 4).1 ≤ 1 <;>
    norm_num [generate, generateRun, genLoop, List.range, List.range.loop, genBlock,
      setFlags, blockCandidates, runPrepares, buildCandidates, totalWeight, selectOp,
      sfsImpl, sfsRegistry, LevelBuilderContext.new, sub_nonpos, sub_le_iff_le_add,
      c0, c1, c2, c3, h0b.le, h1b.le, h2b.le]
  refine ⟨hmain, ?_⟩
  rw [hmain]
  by_cases c0 : (uniform r0 4).1 ≤ 1 <;>
  by_cases c1 : (uniform (uniform r0 4).2 3).1 ≤ 0 <;>
  by_cases c2 : (uniform (uniform (uniform r0 4).2 3).2 4).1 ≤ 0 <;>
  by_cases c3 : (uniform (uniform (uniform r0 4).2 3).2 4).1 ≤ 1 <;>
  norm_num [c0, c1, c2, c3, lt_iff_not_le] <;> decide

theorem sfs_end_to_end_witness :
    (generate halfDraw (sfsImpl ℕ) sfsRegistry
        (LevelBuilderContext.new ℕ SFS 0) 3).operations
      = [if (halfDraw 0 4).1 ≤ 1 then SFS.spawn else SFS.straight,
         if (halfDraw (halfDraw 0 4).2 3).1 ≤ 0 then SFS.spawn else SFS.straight,
         if (halfDraw (halfDraw (halfDraw 0 4).2 3).2 4).1 ≤ 0 then SFS.spawn
         else if (halfDraw (halfDraw (halfDraw 0 4).2 3).2 4).1 ≤ 1 then SFS.finish
         else SFS.straight] ∧
    ((generate halfDraw (sfsImpl ℕ) sfsRegistry
        (LevelBuilderContext.new ℕ SFS 0) 3).operations
        = [SFS.spawn, SFS.straight, SFS.finish]
      ↔ ((halfDraw 0 4).1 ≤ 1 ∧ 0 < (halfDraw (halfDraw 0 4).2 3).1 ∧
         0 < (halfDraw (halfDraw (halfDraw 0 4).2 3).2 4).1 ∧
         (halfDraw (halfDraw (halfDraw 0 4).2 3).2 4).1 ≤ 1)) :=
  sfs_end_to_end halfDraw 0
    (fun _ t ht => by constructor <;> simp [halfDraw] <;> linarith)

/-- C7: History bound.  On a fresh context the final history length is at
most `num_blocks`, with equality exactly when no block was skipped by the
zero-total-weight branch. -/
theorem history_bound (uniform : R → ℚ → ℚ × R)
    (impl : LevelBuilderOperation R O)
    (registry : LevelBuilderOperationRegistry O)
    (ctx : LevelBuilderContext R O) (num_blocks : ℤ)
    (hrange : ∀ (r : R) (t : ℚ), 0 < t →
      0 ≤ (uniform r t).1 ∧ (uniform r t).1 < t)
    (hexec : ∀ op c, (impl.execute op c).operations = c.operations)
    (hn : 0 ≤ num_blocks) (hfresh : ctx.operations = []) :
    ((generate uniform impl registry ctx num_blocks).operations.length : ℤ)
      ≤ num_blocks ∧
    (((generate uniform impl registry ctx num_blocks).operations.length : ℤ)
        = num_blocks
      ↔ (generateRun uniform impl registry ctx num_blocks).2.2 = 0) := by
  obtain ⟨c', Δ, s, h1, h2, h3⟩ := genLoop_spec uniform impl registry num_blocks
    hrange hexec (List.range num_blocks.toNat) ctx [] 0
  have hgen : generate uniform impl registry ctx num_blocks = c' := by
    simp [generate, generateRun, h1]
  have hrun : (generateRun uniform impl registry ctx num_blocks).2.2 = s := by
    simp [generateRun, h1]
  have hops : (generate uniform impl registry ctx num_blocks).operations = Δ := by
    rw [hgen, h2, hfresh]
    simp
  have hlen : Δ.length + s = num_blocks.toNat := by simpa using h3
  rw [hops, hrun]
  constructor
  · omega
  · omega

theorem history_bound_witness :
    ((generate zeroDraw unitImpl [()] unitCtx 2).operations.length : ℤ) ≤ 2 ∧
    (((generate zeroDraw unitImpl [()] unitCtx 2).operations.length : ℤ) = 2
      ↔ (generateRun zeroDraw unitImpl [()] unitCtx 2).2.2 = 0) :=
  history_bound zeroDraw unitImpl [()] unitCtx 2 zeroDraw_range
    (fun _ _ => rfl) (by norm_num) rfl

/-- C8: Candidate construction and prepare ordering.  The candidate list is
rebuilt fresh each block: one entry per registered operation in registry
order, weighted by its `default_spawn_chance` and carrying a clone of the
operation; then `prepare` runs once per registered operation in registry
order on the shared list, so each later operation's `prepare` sees the
mutations made by all earlier ones. -/
theorem candidates_and_prepare_order (impl : LevelBuilderOperation R O)
    (registry r1 r2 : LevelBuilderOperationRegistry O)
    (ctx : LevelBuilderContext R O) (cands : List (ℚ × O)) (op : O) (i : ℕ) :
    (buildCandidates impl registry).length = registry.length ∧
    (buildCandidates impl registry)[i]?
      = (registry[i]?).map (fun o => (impl.default_spawn_chance o, o)) ∧
    runPrepares impl ctx (r1 ++ r2) cands
      = runPrepares impl ctx r2 (runPrepares impl ctx r1 cands) ∧
    runPrepares impl ctx (op :: r1) cands
      = runPrepares impl ctx r1 (impl.prepare op ctx cands) ∧
    blockCandidates impl registry ctx
      = runPrepares impl ctx registry (buildCandidates impl registry) := by
  refine ⟨?_, ?_, ?_, rfl, rfl⟩
  · simp [buildCandidates]
  · simp [buildCandidates]
  · simp [runPrepares, List.foldl_append]

/-- C9: Empty-registry degeneracy.  With no registered operations every
block takes the zero-total-weight skip path: generation completes, the
history stays empty, the cursor stays at the origin, x_direction stays at
its initial value 1, the random source is never drawn from, and all
`num_blocks` iterations are counted as skipped. -/
theorem empty_registry_degenerate (uniform : R → ℚ → ℚ × R)
    (impl : LevelBuilderOperation R O) (r0 : R) (num_blocks : ℤ)
    (hn : 0 ≤ num_blocks) :
    (generate uniform impl [] (LevelBuilderContext.new R O r0) num_blocks).operations
      = [] ∧
    (generate uniform impl [] (LevelBuilderContext.new R O r0) num_blocks).cursor
      = ⟨0, 0⟩ ∧
    (generate uniform impl [] (LevelBuilderContext.new R O r0) num_blocks).x_direction
      = 1 ∧
    (generate uniform impl [] (LevelBuilderContext.new R O r0) num_blocks).rng = r0 ∧
    (generateRun uniform impl [] (LevelBuilderContext.new R O r0) num_blocks).2.2
      = num_blocks.toNat := by
  obtain ⟨c', h1, h2, h3, h4, h5, h6⟩ := genLoop_empty_registry uniform impl
    num_blocks (List.range num_blocks.toNat) (LevelBuilderContext.new R O r0) [] 0
  have hgen : generate uniform impl [] (LevelBuilderContext.new R O r0) num_blocks
      = c' := by
    simp [generate, generateRun, h1]
  have hrun : (generateRun uniform impl []
      (LevelBuilderContext.new R O r0) num_blocks).2.2 = num_blocks.toNat := by
    simp [generateRun, h1]
  rw [hgen, hrun]
  exact ⟨by rw [h5]; rfl, by rw [h2]; rfl, by rw [h3]; rfl, by rw [h6]; rfl, rfl⟩

theorem empty_registry_degenerate_witness :
    (generate zeroDraw unitImpl [] (LevelBuilderContext.new ℕ Unit 0) 3).operations
      = [] ∧
    (generate zeroDraw unitImpl [] (LevelBuilderContext.new ℕ Unit 0) 3).cursor
      = ⟨0, 0⟩ ∧
    (generate zeroDraw unitImpl [] (LevelBuilderContext.new ℕ Unit 0) 3).x_direction
      = 1 ∧
    (generate zeroDraw unitImpl [] (LevelBuilderContext.new ℕ Unit 0) 3).rng = 0 ∧
    (generateRun zeroDraw unitImpl [] (LevelBuilderContext.new ℕ Unit 0) 3).2.2
      = (3 : ℤ).toNat :=
  empty_registry_degenerate zeroDraw unitImpl 0 3 (by norm_num)

/-- C10: Skipped blocks consume no randomness.  A zero-total-weight
iteration leaves the rng state untouched; a non-skipped iteration advances
it by exactly one generator step (given that the generator's state
transition is independent of the requested range, as for `Pcg64`, and that
`execute` leaves the random source alone); over a whole run the final rng
state is the seed advanced once per non-skipped block. -/
theorem rng_frame (uniform : R → ℚ → ℚ × R) (impl : LevelBuilderOperation R O)
    (registry : LevelBuilderOperationRegistry O)
    (ctx : LevelBuilderContext R O) (bi num_blocks : ℤ) (step : R → R)
    (hstep : ∀ r t, (uniform r t).2 = step r)
    (hexecrng : ∀ op c, (impl.execute op c).rng = c.rng) :
    (totalWeight (blockCandidates impl registry (setFlags ctx bi num_blocks)) ≤ 0 →
      (genBlock uniform impl registry num_blocks ctx bi).ctx.rng = ctx.rng) ∧
    (0 < totalWeight (blockCandidates impl registry (setFlags ctx bi num_blocks)) →
      (genBlock uniform impl registry num_blocks ctx bi).ctx.rng = step ctx.rng) ∧
    ∃ s : ℕ, s ≤ num_blocks.toNat ∧
      (generateRun uniform impl registry ctx num_blocks).2.2 = s ∧
      (generate uniform impl registry ctx num_blocks).rng
        = step^[num_blocks.toNat - s] ctx.rng := by
  refine ⟨?_, ?_, ?_⟩
  · intro htot
    rw [genBlock_skip uniform impl registry num_blocks ctx bi htot]
    rfl
  · intro htot
    have hrng := genBlock_rng uniform impl registry num_blocks ctx bi step
      hstep hexecrng
    have hns : (genBlock uniform impl registry num_blocks ctx bi).skipped = false := by
      rw [← Bool.not_eq_true, genBlock_skipped_iff]
      exact not_le.mpr htot
    rw [hrng, hns, if_neg Bool.false_ne_true]
  · obtain ⟨s, hs1, hs2, hs3⟩ := genLoop_rng uniform impl registry num_blocks step
      hstep hexecrng (List.range num_blocks.toNat) ctx [] 0
    refine ⟨s, by simpa using hs1, by simpa [generateRun] using hs2, ?_⟩
    simpa [generate, generateRun] using hs3

theorem rng_frame_witness :
    (totalWeight (blockCandidates unitImpl [()] (setFlags unitCtx 0 1)) ≤ 0 →
      (genBlock zeroDraw unitImpl [()] 1 unitCtx 0).ctx.rng = unitCtx.rng) ∧
    (0 < totalWeight (blockCandidates unitImpl [()] (setFlags unitCtx 0 1)) →
      (genBlock zeroDraw unitImpl [()] 1 unitCtx 0).ctx.rng
        = (fun s => s + 1) unitCtx.rng) ∧
    ∃ s : ℕ, s ≤ (1 : ℤ).toNat ∧
      (generateRun zeroDraw unitImpl [()] unitCtx 1).2.2 = s ∧
      (generate zeroDraw unitImpl [()] unitCtx 1).rng
        = (fun s => s + 1)^[(1 : ℤ).toNat - s] unitCtx.rng :=
  rng_frame zeroDraw unitImpl [()] unitCtx 0 1 (fun s => s + 1)
    (fun _ _ => rfl) (fun _ _ => rfl)

end PlanckTimeTrials
